import Mathlib

/-!
Shallow embedding of `cluster_pack/packaging.py` (repository Djailla/cluster-pack)
and proofs about its specified behaviour.

Pure string/path manipulation from the Python standard library (`os.path.basename`,
`os.path.splitext`, `str.split`, `str.endswith`) is re-implemented faithfully below.
Ambient process state (environment variables, importability of the `_pex` module,
the conda interpreter layout, the configured default filesystem, the current user)
is gathered in an explicit `Ctx` record that is threaded through the functions,
mirroring the reads the Python code performs.
-/

namespace ClusterPack

/-! ### `os.path` helpers -/

/-- The characters of `s` after the last `'/'` — `os.path.basename`. -/
def basenameChars (cs : List Char) : List Char :=
  (cs.reverse.takeWhile (fun c => c ≠ '/')).reverse

/-- Lean model of `os.path.basename` on POSIX paths. -/
def basename (s : String) : String :=
  ⟨basenameChars s.data⟩

/-- Index of the last occurrence of `c` in `cs`, `-1` when absent — `str.rfind`. -/
def rfindIdx (cs : List Char) (c : Char) : Int :=
  match cs.reverse.findIdx? (fun x => x == c) with
  | none => -1
  | some i => (cs.length : Int) - 1 - (i : Int)

/-- Lean model of CPython `posixpath.splitext`: split off the extension that starts
at the last dot, provided that dot lies inside the basename and at least one
character of the basename before it is not a dot. -/
def splitext (p : String) : String × String :=
  let cs := p.data
  let sepIndex := rfindIdx cs '/'
  let dotIndex := rfindIdx cs '.'
  if sepIndex < dotIndex ∧
      ((cs.take dotIndex.toNat).drop (sepIndex + 1).toNat).any (fun x => x != '.') = true then
    (⟨cs.take dotIndex.toNat⟩, ⟨cs.drop dotIndex.toNat⟩)
  else
    (p, "")

/-- First component (`root`) of `os.path.splitext`. -/
def splitext_root (p : String) : String := (splitext p).1

/-- Second component (the extension) of `os.path.splitext`. -/
def splitext_ext (p : String) : String := (splitext p).2

/-! ### Environment / process context -/

/-- First-match lookup in an association list; models lookup in a Python `dict`
such as `os.environ` (whose keys are unique). -/
def lookupA (k : String) : List (String × String) → Option String
  | [] => none
  | p :: rest => if p.1 = k then some p.2 else lookupA k rest

/-- Ambient process state read by `packaging.py`:
`environ` models `os.environ`; `pex_importable` tells whether `import _pex`
succeeds; `pex_module_path` is the value
`os.path.abspath(os.path.dirname(os.path.dirname(os.path.dirname(_pex.__file__))))`
computed in that case; `conda_env_name` is `pathlib.Path(sys.executable).parents[1].name`;
`default_fs` is the output of `hdfs getconf -confKey fs.defaultFS`; `user` is
`getpass.getuser()`. -/
structure Ctx where
  environ : List (String × String)
  pex_importable : Bool
  pex_module_path : String
  conda_env_name : String
  default_fs : String
  user : String

/-- `os.environ.get` in a context. -/
def lookupEnv (ctx : Ctx) (name : String) : Option String :=
  lookupA name ctx.environ

/-- Lean model of `packaging._running_from_pex`: the `PEX` environment variable is
present, or the `_pex` module is importable; never fails. -/
def _running_from_pex (ctx : Ctx) : Bool :=
  (lookupEnv ctx "PEX").isSome || ctx.pex_importable

/-- Lean model of `packaging.get_current_pex_filepath`: the value of the `PEX`
environment variable when present, otherwise a path derived from the importable
`_pex` module, otherwise a `RuntimeError`. -/
def get_current_pex_filepath (ctx : Ctx) : Except String String :=
  match lookupEnv ctx "PEX" with
  | some v => .ok v
  | none =>
    if ctx.pex_importable then
      .ok ctx.pex_module_path
    else
      .error "Trying to get current pex file path while not running from PEX"

/-- Lean model of `packaging.get_env_name`: basename of the environment variable
value, or the literal string `default` when the variable is absent or empty. -/
def get_env_name (ctx : Ctx) (env_var_name : String) : String :=
  match lookupEnv ctx env_var_name with
  | none => "default"
  | some virtual_env_path =>
    if virtual_env_path = "" then "default" else basename virtual_env_path

/-! ### Packers -/

/-- The two packer strategies: `CondaPacker` and `PexPacker`. -/
inductive PackerKind where
  | conda
  | pex
deriving DecidableEq

/-- `Packer.extension` of each strategy. -/
def extension : PackerKind → String
  | .conda => "tar.gz"
  | .pex => "pex"

/-- `Packer.env_name` of each strategy: the conda name comes from the interpreter
path, the pex name from the `VIRTUAL_ENV` environment variable. -/
def packer_env_name (ctx : Ctx) : PackerKind → String
  | .conda => ctx.conda_env_name
  | .pex => get_env_name ctx "VIRTUAL_ENV"

/-- The default archive location built by `detect_archive_names` when the caller
supplies no path. -/
def default_package_path (ctx : Ctx) (packer : PackerKind) (env_name : String) : String :=
  ctx.default_fs ++ "/user/" ++ ctx.user ++ "/envs/" ++ env_name ++ "." ++ extension packer

/-- The first half of `detect_archive_names`: the `(pex_file, env_name)` pair
produced by its initial `if _running_from_pex()` statement. -/
def detect_pex_and_env (ctx : Ctx) (packer : PackerKind) : Except String (String × String) :=
  if _running_from_pex ctx then
    (get_current_pex_filepath ctx).map
      (fun pex_file => (pex_file, splitext_root (basename pex_file)))
  else
    .ok ("", packer_env_name ctx packer)

/-- Lean model of `packaging.detect_archive_names`.  A caller-supplied empty
string is falsy in Python and behaves like an absent path. -/
def detect_archive_names (ctx : Ctx) (packer : PackerKind) (package_path : Option String) :
    Except String (String × String × String) :=
  match detect_pex_and_env ctx packer with
  | .error e => .error e
  | .ok (pex_file, env_name) =>
    match package_path with
    | none => .ok (default_package_path ctx packer env_name, env_name, pex_file)
    | some p =>
      if p = "" then
        .ok (default_package_path ctx packer env_name, env_name, pex_file)
      else if splitext_ext p ≠ "." ++ extension packer then
        .error (p ++ " has the wrong extension, ." ++ extension packer ++ " is expected")
      else
        .ok (p, env_name, pex_file)

/-- Lean model of `packaging.detect_packer_from_spec`. -/
def detect_packer_from_spec (spec_file : String) : Except String PackerKind :=
  if basename spec_file = "requirements.txt" then
    .ok .pex
  else if spec_file.endsWith ".yaml" || spec_file.endsWith ".yml" then
    .ok .conda
  else
    .error ("Archive format " ++ spec_file ++ " unsupported. Must be requirements.txt or conda .yaml")

/-! ### Freshness oracle

`_is_archive_up_to_date` and `_get_archive_metadata_path` are exercised by
`tests/test_packaging.py` but their bodies are not part of the sources at hand;
they are modelled from the spec below. -/

/-- Modelled from the spec: a remote filesystem collaborator offering
`exists(path)` and `open(path)` for read; `read` returns the requirement mapping
parsed from the metadata JSON stored at a path (the function body of
`_is_archive_up_to_date` is missing from `src/cluster_pack/packaging.py`, only
its tests are present). -/
structure EnhancedFileSystem where
  fexists : String → Bool
  read : String → List (String × String)

/-- Modelled from the spec: given archive path `P` with extension `.ext`, the
metadata path is the same path with the extension replaced by `.json`
(`_get_archive_metadata_path` is missing from `src/cluster_pack/packaging.py`). -/
def _get_archive_metadata_path (archive_path : String) : String :=
  splitext_root archive_path ++ ".json"

/-- Equality of two requirement mappings represented as association lists with
unique keys, exactly as Python `dict` equality: every entry of each side is
found in the other with the same value. -/
def dictEqB (a b : List (String × String)) : Bool :=
  a.all (fun p => decide (lookupA p.1 b = some p.2)) &&
    b.all (fun p => decide (lookupA p.1 a = some p.2))

/-- Modelled from the spec: `_is_archive_up_to_date(archive_path,
current_packages_list, resolved_fs)` returns false when the archive file does
not exist, false when its metadata file does not exist, and otherwise compares
the mapping parsed from the metadata JSON with `current_packages_list` for exact
equality (its body is missing from `src/cluster_pack/packaging.py`; only
`tests/test_packaging.py` exercises it). -/
def _is_archive_up_to_date (archive_path : String)
    (current_packages_list : List (String × String)) (fs : EnhancedFileSystem) : Bool :=
  fs.fexists archive_path &&
    (fs.fexists (_get_archive_metadata_path archive_path) &&
      dictEqB (fs.read (_get_archive_metadata_path archive_path)) current_packages_list)

/-! ### `pack_in_pex` command assembly -/

/-- `CRITEO_PYPI_URL` from `packaging.py`. -/
def CRITEO_PYPI_URL : String := "http://build-nexus.prod.crto.in/repository/moab.pypi/simple"

/-- The package name of a requirement string: `req.split("=")[0]`, i.e. the
characters before the first `'='` (the whole string when there is none). -/
def reqName (req : String) : String :=
  ⟨req.data.takeWhile (fun c => c ≠ '=')⟩

/-- The requirement-appending loop of `pack_in_pex`: each requirement whose
package name is in `ignored_packages` is skipped, every other requirement is
appended to the command. -/
def addPexReqs (cmd : List String) (requirements : List String)
    (ignored_packages : List String) : List String :=
  match requirements with
  | [] => cmd
  | req :: rest =>
    if ignored_packages.contains (reqName req) then
      addPexReqs cmd rest ignored_packages
    else
      addPexReqs (cmd ++ [req]) rest ignored_packages

/-- The argument list `pack_in_pex` assembles for the delegated `pex` process.
`sources_directory` is present exactly when non-empty editable requirements were
given (the temporary directory their sources were copied to); `is_criteo`
models `_is_criteo()`. -/
def pack_in_pex_cmd (requirements : List String) (output : String)
    (ignored_packages : List String) (pex_inherit_path : String)
    (sources_directory : Option String) (is_criteo : Bool) : List String :=
  let cmd := ["pex", "--inherit-path=" ++ pex_inherit_path]
  let cmd := match sources_directory with
    | some d => cmd ++ ["--sources-directory=" ++ d]
    | none => cmd
  let cmd := addPexReqs cmd requirements ignored_packages
  let cmd := if is_criteo then cmd ++ ["--index-url=" ++ CRITEO_PYPI_URL] else cmd
  cmd ++ ["-o", output]

/-! ### `_get_packages` -/

/-- `output.split("\n")[0]`: the characters of the raw query output before its
first newline. -/
def firstLine (output : List Char) : List Char :=
  output.takeWhile (fun c => c ≠ '\n')

/-- Lean model of `packaging._get_packages` after the subprocess call: keep only
the first line of the raw `pip list --format json` output, try to parse it as
JSON (the parser, Python `json.loads`, is an external collaborator abstracted as
a parameter) and return the parsed payload; on parse failure raise, carrying the
text that failed to parse. -/
def _get_packages {α : Type} (parseJson : List Char → Option α) (output : List Char) :
    Except (List Char) α :=
  let results := firstLine output
  match parseJson results with
  | some pkgs => .ok pkgs
  | none => .error results

/-! ### `get_editable_requirements` (pex branch) -/

/-- Assignment `d[k] = v` on a Python dict kept as an insertion-ordered
association list: replace in place when the key is present, append otherwise. -/
def dictInsert (d : List (String × String)) (k v : String) : List (String × String) :=
  if d.any (fun p => p.1 == k) then
    d.map (fun p => if p.1 = k then (k, v) else p)
  else
    d ++ [(k, v)]

/-- Lean model of the `_running_from_pex` branch of
`packaging.get_editable_requirements`: `index_file` is the line list of
`<editable_packages_dir>/editable_packages_index` (or `none` when opening it
raises `FileNotFoundError`), and `find_module` abstracts `imp.find_module`,
returning the resolved path or `none` when an `ImportError` is raised (in which
case the name is logged and skipped). -/
def get_editable_requirements_from_pex (index_file : Option (List String))
    (find_module : String → Option String) : List (String × String) :=
  match index_file with
  | none => []
  | some package_names =>
    package_names.foldl
      (fun acc package_name =>
        match find_module package_name with
        | some path => dictInsert acc (basename path) path
        | none => acc)
      []

/-! ### `zip_path` -/

/-- Python `file.endswith(".pyc")` on the character list of a filename. -/
def endsWithPyc (cs : List Char) : Bool :=
  cs.reverse.take 4 == ['c', 'y', 'p', '.']

/-- `os.path.join` on relative path components, as used by `zip_path`: an empty
accumulated path is replaced by the next component, otherwise components are
separated by `'/'`. -/
def joinPath (parts : List (List Char)) : List Char :=
  match parts with
  | [] => []
  | p :: rest => rest.foldl (fun acc q => if acc = [] then q else acc ++ '/' :: q) p

/-- The archive entry name `zip_path` writes for a file at relative directory
components `rel` (empty for the top level) with name `file`:
`os.path.join(basename(py_dir) if include_base_name else "", relpath, file)`. -/
def arcname (py_dir_basename : List Char) (include_base_name : Bool)
    (rel : List (List Char)) (file : List Char) : List Char :=
  joinPath (((if include_base_name then py_dir_basename else []) :: rel) ++ [file])

/-- The list of entry names of the archive produced by `zip_path` on a walk of
`py_dir` whose regular files sit at `(rel, file)`: files ending in `.pyc` are
skipped, every other file is written under its `arcname`. -/
def zip_path_entries (py_dir_basename : List Char) (include_base_name : Bool)
    (files : List (List (List Char) × List Char)) : List (List Char) :=
  files.filterMap (fun rf =>
    if endsWithPyc rf.2 then none
    else some (arcname py_dir_basename include_base_name rf.1 rf.2))

/-! ### Supporting lemmas -/

/-- Whether an `Except` value models a raised Python exception. -/
def isErr {ε α : Type} : Except ε α → Bool
  | .error _ => true
  | .ok _ => false

lemma mem_of_lookupA {k v : String} :
    ∀ {a : List (String × String)}, lookupA k a = some v → (k, v) ∈ a := by
  intro a
  induction a with
  | nil => intro h; simp [lookupA] at h
  | cons p t ih =>
    intro h
    rw [lookupA] at h
    split at h
    · rename_i h1
      obtain rfl : p.2 = v := by injection h
      rw [← h1]
      exact List.mem_cons_self _ _
    · exact List.mem_cons_of_mem _ (ih h)

lemma lookupA_eq_some_of_mem {k v : String} :
    ∀ {a : List (String × String)},
      (a.map Prod.fst).Nodup → (k, v) ∈ a → lookupA k a = some v := by
  intro a
  induction a with
  | nil => intro _ h; simp at h
  | cons p t ih =>
    intro hnd hm
    have hnd' : (t.map Prod.fst).Nodup := (List.nodup_cons.mp (by simpa using hnd)).2
    have hnotin : p.1 ∉ t.map Prod.fst := (List.nodup_cons.mp (by simpa using hnd)).1
    rcases List.mem_cons.mp hm with h | h
    · rw [lookupA, ← h]
      simp
    · rw [lookupA]
      split
      · rename_i h1
        exfalso
        apply hnotin
        rw [h1]
        exact List.mem_map.mpr ⟨(k, v), h, rfl⟩
      · exact ih hnd' h

lemma dictEqB_iff {a b : List (String × String)}
    (ha : (a.map Prod.fst).Nodup) (hb : (b.map Prod.fst).Nodup) :
    dictEqB a b = true ↔ ∀ k, lookupA k a = lookupA k b := by
  unfold dictEqB
  rw [Bool.and_eq_true, List.all_eq_true, List.all_eq_true]
  constructor
  · rintro ⟨h1, h2⟩ k
    cases hk : lookupA k a with
    | some v =>
      have hm := mem_of_lookupA hk
      have hv := h1 _ hm
      simp only [decide_eq_true_eq] at hv
      rw [hv]
    | none =>
      cases hk' : lookupA k b with
      | none => rfl
      | some w =>
        have hm := mem_of_lookupA hk'
        have hw := h2 _ hm
        simp only [decide_eq_true_eq] at hw
        rw [hw] at hk
        cases hk
  · intro h
    constructor
    · intro p hp
      simp only [decide_eq_true_eq]
      rw [← h p.1]
      exact lookupA_eq_some_of_mem ha hp
    · intro p hp
      simp only [decide_eq_true_eq]
      rw [h p.1]
      exact lookupA_eq_some_of_mem hb hp

lemma detect_pair_ok (ctx : Ctx) (packer : PackerKind) :
    ∃ pex_file env_name,
      detect_pex_and_env ctx packer = Except.ok (pex_file, env_name) ∧
      env_name = (if _running_from_pex ctx then splitext_root (basename pex_file)
                  else packer_env_name ctx packer) := by
  by_cases hrun : _running_from_pex ctx = true
  · cases hpex : lookupEnv ctx "PEX" with
    | some v =>
      refine ⟨v, splitext_root (basename v), ?_, ?_⟩
      · simp [detect_pex_and_env, hrun, get_current_pex_filepath, hpex, Except.map]
      · rw [if_pos hrun]
    | none =>
      have himp : ctx.pex_importable = true := by
        unfold _running_from_pex at hrun
        simpa [hpex] using hrun
      refine ⟨ctx.pex_module_path, splitext_root (basename ctx.pex_module_path), ?_, ?_⟩
      · simp [detect_pex_and_env, hrun, get_current_pex_filepath, hpex, himp, Except.map]
      · rw [if_pos hrun]
  · refine ⟨"", packer_env_name ctx packer, ?_, ?_⟩
    · simp [detect_pex_and_env, hrun]
    · rw [if_neg hrun]

lemma detect_archive_names_eq (ctx : Ctx) (packer : PackerKind) (package_path : Option String)
    (pf en : String) (heq : detect_pex_and_env ctx packer = Except.ok (pf, en)) :
    detect_archive_names ctx packer package_path =
      match package_path with
      | none => .ok (default_package_path ctx packer en, en, pf)
      | some p =>
        if p = "" then
          .ok (default_package_path ctx packer en, en, pf)
        else if splitext_ext p ≠ "." ++ extension packer then
          .error (p ++ " has the wrong extension, ." ++ extension packer ++ " is expected")
        else
          .ok (p, en, pf) := by
  unfold detect_archive_names
  rw [heq]

/-! ### Claim theorems -/

/-- A loose development context: no `PEX` environment variable, no importable
`_pex` module. -/
def ctxLoose : Ctx :=
  ⟨[], false, "", "condaenv", "hdfs://root", "j.doe"⟩

/-- A context that runs from a packaged bundle, identified by the `PEX`
environment variable. -/
def ctxBundle : Ctx :=
  ⟨[("PEX", "/home/j.doe/myapp.pex")], false, "", "condaenv", "hdfs://root", "j.doe"⟩

/-- A context with a `VIRTUAL_ENV` variable and no bundle markers. -/
def ctxVenv : Ctx :=
  ⟨[("VIRTUAL_ENV", "/path/to/my_venv")], false, "", "condaenv", "hdfs://root", "j.doe"⟩

/-- C1: `_is_archive_up_to_date` is false when the archive file does not exist,
false when its metadata file does not exist, and otherwise true iff the mapping
parsed from the metadata JSON is exactly equal to the current requirements: the
same key set with the same version string per key, i.e. extensionally equal
lookups. -/
theorem is_archive_up_to_date_characterization (archive_path : String)
    (meta cur : List (String × String)) (fs : EnhancedFileSystem)
    (hmeta : (meta.map Prod.fst).Nodup) (hcur : (cur.map Prod.fst).Nodup)
    (hread : fs.read (_get_archive_metadata_path archive_path) = meta) :
    (fs.fexists archive_path = false → _is_archive_up_to_date archive_path cur fs = false) ∧
    (fs.fexists (_get_archive_metadata_path archive_path) = false →
      _is_archive_up_to_date archive_path cur fs = false) ∧
    (fs.fexists archive_path = true →
      fs.fexists (_get_archive_metadata_path archive_path) = true →
      (_is_archive_up_to_date archive_path cur fs = true ↔
        ∀ k, lookupA k meta = lookupA k cur)) := by
  refine ⟨?_, ?_, ?_⟩
  · intro h
    simp [_is_archive_up_to_date, h]
  · intro h
    simp [_is_archive_up_to_date, h]
  · intro h1 h2
    simp [_is_archive_up_to_date, h1, h2, hread, dictEqB_iff hmeta hcur]

/-- A filesystem on which both `myarchive.pex` and `myarchive.json` exist and the
metadata parses to `a ↦ 2.0, b ↦ 1.0`. -/
def fsBoth : EnhancedFileSystem :=
  ⟨fun _ => true, fun _ => [("a", "2.0"), ("b", "1.0")]⟩

theorem is_archive_up_to_date_characterization_witness :
    _is_archive_up_to_date "myarchive.pex" [("a", "2.0"), ("b", "1.0")] fsBoth = true :=
  ((is_archive_up_to_date_characterization "myarchive.pex" [("a", "2.0"), ("b", "1.0")]
      [("a", "2.0"), ("b", "1.0")] fsBoth (by decide) (by decide) rfl).2.2
    rfl rfl).mpr (fun _ => rfl)

/-- C2 counterexample: `myarchive.tar.gz` ends in the conda packer's extension
tag `tar.gz`, yet `detect_archive_names` with the conda packer raises a
`ValueError` on it, because `os.path.splitext` only yields the final `.gz`
component. -/
theorem detect_archive_names_rejects_matching_conda_suffix :
    isErr (detect_archive_names ctxLoose PackerKind.conda (some "myarchive.tar.gz")) = true ∧
    (".tar.gz".data.isSuffixOf "myarchive.tar.gz".data) = true ∧
    "." ++ extension PackerKind.conda = ".tar.gz" ∧
    splitext_ext "myarchive.tar.gz" = ".gz" := by
  refine ⟨by decide, by decide, by decide, by decide⟩

/-- C2 (amended): for a non-empty explicit path, `detect_archive_names` raises a
`ValueError` if and only if the path's final extension component, as computed by
`os.path.splitext`, differs from `"." + packer.extension()`. -/
theorem detect_archive_names_error_iff (ctx : Ctx) (packer : PackerKind) (p : String)
    (hp : p ≠ "") :
    isErr (detect_archive_names ctx packer (some p)) = true ↔
      splitext_ext p ≠ "." ++ extension packer := by
  obtain ⟨pf, en, heq, -⟩ := detect_pair_ok ctx packer
  rw [detect_archive_names_eq ctx packer (some p) pf en heq]
  by_cases hx : splitext_ext p = "." ++ extension packer
  · simp [hp, hx, isErr]
  · simp [hp, hx, isErr]

theorem detect_archive_names_error_iff_witness :
    ("myarchive.tar.gz" ≠ "") ∧
    (isErr (detect_archive_names ctxLoose PackerKind.conda (some "myarchive.tar.gz")) = true ↔
      splitext_ext "myarchive.tar.gz" ≠ "." ++ extension PackerKind.conda) :=
  ⟨by decide, detect_archive_names_error_iff ctxLoose PackerKind.conda "myarchive.tar.gz" (by decide)⟩

/-- C3: when the process runs from a packaged bundle, the returned `env_name` is
the bundle filename's stem, otherwise it is the packer's environment name; the
pex packer's environment name comes from `get_env_name`, which returns the
basename of the environment variable's value and the literal `default` when the
variable is absent or empty. -/
theorem env_name_derivation (ctx : Ctx) (packer : PackerKind) (package_path : Option String) :
    (∀ path env_name pex_file,
      detect_archive_names ctx packer package_path = .ok (path, env_name, pex_file) →
      env_name = (if _running_from_pex ctx then splitext_root (basename pex_file)
                  else packer_env_name ctx packer)) ∧
    (packer_env_name ctx PackerKind.pex = get_env_name ctx "VIRTUAL_ENV") ∧
    (∀ v p, lookupEnv ctx v = some p → p ≠ "" → get_env_name ctx v = basename p) ∧
    (∀ v, lookupEnv ctx v = none → get_env_name ctx v = "default") ∧
    (∀ v, lookupEnv ctx v = some "" → get_env_name ctx v = "default") := by
  refine ⟨?_, rfl, ?_, ?_, ?_⟩
  · intro path env_name pex_file h
    obtain ⟨pf, en, heq, hen⟩ := detect_pair_ok ctx packer
    rw [detect_archive_names_eq ctx packer package_path pf en heq] at h
    cases package_path with
    | none =>
      simp only [Except.ok.injEq, Prod.mk.injEq] at h
      obtain ⟨-, h2, h3⟩ := h
      rw [← h2, ← h3]
      exact hen
    | some p =>
      by_cases hp : p = ""
      · simp only [if_pos hp, Except.ok.injEq, Prod.mk.injEq] at h
        obtain ⟨-, h2, h3⟩ := h
        rw [← h2, ← h3]
        exact hen
      · by_cases hx : splitext_ext p ≠ "." ++ extension packer
        · simp only [if_neg hp, if_pos hx] at h
          cases h
        · simp only [if_neg hp, if_neg hx, Except.ok.injEq, Prod.mk.injEq] at h
          obtain ⟨-, h2, h3⟩ := h
          rw [← h2, ← h3]
          exact hen
  · intro v p hv hne
    simp [get_env_name, hv, hne]
  · intro v hv
    simp [get_env_name, hv]
  · intro v hv
    simp [get_env_name, hv]

theorem env_name_derivation_witness :
    ("myapp" : String) =
      (if _running_from_pex ctxBundle then
        splitext_root (basename "/home/j.doe/myapp.pex")
      else packer_env_name ctxBundle PackerKind.pex) ∧
    get_env_name ctxVenv "VIRTUAL_ENV" = "my_venv" ∧
    get_env_name ctxLoose "VIRTUAL_ENV" = "default" :=
  ⟨(env_name_derivation ctxBundle PackerKind.pex none).1
      "hdfs://root/user/j.doe/envs/myapp.pex" "myapp" "/home/j.doe/myapp.pex" rfl,
   (env_name_derivation ctxVenv PackerKind.pex none).2.2.1
      "VIRTUAL_ENV" "/path/to/my_venv" (by decide) (by decide),
   (env_name_derivation ctxLoose PackerKind.pex none).2.2.2.1 "VIRTUAL_ENV" (by decide)⟩

/-- C4: with no explicit path, `detect_archive_names` succeeds and returns the
archive path `<default_fs>/user/<current_user>/envs/<env_name>.<extension>`. -/
theorem detect_archive_names_default_path (ctx : Ctx) (packer : PackerKind) :
    ∃ env_name pex_file,
      detect_archive_names ctx packer none =
        .ok (ctx.default_fs ++ "/user/" ++ ctx.user ++ "/envs/" ++ env_name ++ "."
              ++ extension packer, env_name, pex_file) := by
  obtain ⟨pf, en, heq, -⟩ := detect_pair_ok ctx packer
  refine ⟨en, pf, ?_⟩
  rw [detect_archive_names_eq ctx packer none pf en heq]
  rfl

/-- C5: `detect_packer_from_spec` returns the pex packer exactly for a file whose
basename is `requirements.txt`, the conda packer exactly for any other file name
ending in `.yaml` or `.yml`, and raises a `ValueError` for every other file
name. -/
theorem detect_packer_from_spec_cases (spec_file : String) :
    (detect_packer_from_spec spec_file = .ok PackerKind.pex ↔
      basename spec_file = "requirements.txt") ∧
    (detect_packer_from_spec spec_file = .ok PackerKind.conda ↔
      (basename spec_file ≠ "requirements.txt" ∧
        (spec_file.endsWith ".yaml" = true ∨ spec_file.endsWith ".yml" = true))) ∧
    (isErr (detect_packer_from_spec spec_file) = true ↔
      (basename spec_file ≠ "requirements.txt" ∧
        spec_file.endsWith ".yaml" = false ∧ spec_file.endsWith ".yml" = false)) := by
  unfold detect_packer_from_spec
  by_cases h1 : basename spec_file = "requirements.txt" <;>
    by_cases h2 : spec_file.endsWith ".yaml" = true <;>
    by_cases h3 : spec_file.endsWith ".yml" = true <;>
    simp_all [isErr]

lemma addPexReqs_eq (requirements : List String) :
    ∀ (cmd : List String) (ignored_packages : List String),
      addPexReqs cmd requirements ignored_packages =
        cmd ++ requirements.filter (fun req => !ignored_packages.contains (reqName req)) := by
  induction requirements with
  | nil => intro cmd ign; simp [addPexReqs]
  | cons req rest ih =>
    intro cmd ign
    unfold addPexReqs
    by_cases h : ign.contains (reqName req) = true
    · have hm : reqName req ∈ ign := by simpa using h
      rw [if_pos h, ih]
      simp [List.filter_cons, hm]
    · have hm : reqName req ∉ ign := by simpa using h
      rw [if_neg h, ih]
      simp [List.filter_cons, hm, List.append_assoc]

/-- C6: the command `pack_in_pex` assembles contains, between its fixed flag
arguments, exactly the requirement strings whose package name — the part of the
string before the first `'='` — is not among the ignored packages; ignored
requirements are dropped without error. -/
theorem pack_in_pex_cmd_filters_ignored (requirements : List String) (output : String)
    (ignored_packages : List String) (pex_inherit_path : String)
    (sources_directory : Option String) (is_criteo : Bool) :
    pack_in_pex_cmd requirements output ignored_packages pex_inherit_path
        sources_directory is_criteo =
      (["pex", "--inherit-path=" ++ pex_inherit_path] ++
          (sources_directory.map (fun d => "--sources-directory=" ++ d)).toList) ++
        requirements.filter (fun req => !ignored_packages.contains (reqName req)) ++
        ((if is_criteo then ["--index-url=" ++ CRITEO_PYPI_URL] else []) ++ ["-o", output]) := by
  unfold pack_in_pex_cmd
  cases sources_directory <;> cases is_criteo <;>
    simp [addPexReqs_eq, Option.toList, List.append_assoc]

lemma firstLine_of_no_newline {line : List Char} (h : '\n' ∉ line) :
    firstLine line = line := by
  apply List.takeWhile_eq_self_iff.mpr
  intro x hx
  simp only [decide_eq_true_eq]
  exact fun he => h (he ▸ hx)

lemma firstLine_append_newline {line : List Char} (rest : List Char) (h : '\n' ∉ line) :
    firstLine (line ++ '\n' :: rest) = line := by
  induction line with
  | nil => simp [firstLine, List.takeWhile_cons]
  | cons c t ih =>
    simp only [List.mem_cons, not_or] at h
    have hc : c ≠ '\n' := fun he => h.1 he.symm
    have ht := ih h.2
    simp only [firstLine, List.cons_append, List.takeWhile_cons, decide_eq_true_eq] at ht ⊢
    rw [if_pos hc, ht]

/-- C7: `_get_packages` inspects only the first line of the package-manager
output — everything after the first newline is skipped — and when that line does
not parse as JSON it raises an error carrying the text it tried to parse, never
returning a successful empty result. -/
theorem get_packages_first_json_payload {α : Type} (parseJson : List Char → Option α)
    (line rest : List Char) (hline : '\n' ∉ line) :
    (_get_packages parseJson (line ++ '\n' :: rest) = _get_packages parseJson line) ∧
    (∀ output : List Char, parseJson (firstLine output) = none →
      _get_packages parseJson output = .error (firstLine output)) := by
  constructor
  · unfold _get_packages
    rw [firstLine_append_newline rest hline, firstLine_of_no_newline hline]
  · intro output h
    simp only [_get_packages]
    rw [h]

/-- A toy JSON parser accepting exactly the payload `[]`, standing in for
`json.loads` in the witness below. -/
def parseEmptyList (cs : List Char) : Option Nat :=
  if cs = "[]".data then some 0 else none

theorem get_packages_first_json_payload_witness :
    (_get_packages parseEmptyList ("[]".data ++ '\n' :: "warning: bla".data) =
      _get_packages parseEmptyList "[]".data) ∧
    (_get_packages parseEmptyList "not json".data = .error (firstLine "not json".data)) :=
  ⟨(get_packages_first_json_payload parseEmptyList "[]".data "warning: bla".data (by decide)).1,
   (get_packages_first_json_payload parseEmptyList "[]".data "warning: bla".data
      (by decide)).2 "not json".data (by decide)⟩

/-- C8: with no `PEX` environment variable and no importable `_pex` module,
`get_current_pex_filepath` raises while `_running_from_pex` returns `false`
without raising; with the `PEX` variable present, `get_current_pex_filepath`
returns its value directly. -/
theorem pex_self_detection (ctx : Ctx) :
    (lookupEnv ctx "PEX" = none → ctx.pex_importable = false →
      isErr (get_current_pex_filepath ctx) = true ∧ _running_from_pex ctx = false) ∧
    (∀ v, lookupEnv ctx "PEX" = some v → get_current_pex_filepath ctx = .ok v) := by
  constructor
  · intro h1 h2
    constructor
    · simp [get_current_pex_filepath, h1, h2, isErr]
    · simp [_running_from_pex, h1, h2]
  · intro v hv
    simp [get_current_pex_filepath, hv]

theorem pex_self_detection_witness :
    (isErr (get_current_pex_filepath ctxLoose) = true ∧ _running_from_pex ctxLoose = false) ∧
    get_current_pex_filepath ctxBundle = .ok "/home/j.doe/myapp.pex" :=
  ⟨(pex_self_detection ctxLoose).1 rfl rfl,
   (pex_self_detection ctxBundle).2 "/home/j.doe/myapp.pex" rfl⟩

lemma mem_dictInsert {d : List (String × String)} {k v : String} {kv : String × String}
    (h : kv ∈ dictInsert d k v) : kv = (k, v) ∨ kv ∈ d := by
  unfold dictInsert at h
  split at h
  · obtain ⟨p, hp, hpe⟩ := List.mem_map.mp h
    by_cases hk : p.1 = k
    · rw [if_pos hk] at hpe
      exact Or.inl hpe.symm
    · rw [if_neg hk] at hpe
      exact Or.inr (hpe ▸ hp)
  · rcases List.mem_append.mp h with h' | h'
    · exact Or.inr h'
    · exact Or.inl (by simpa using h')

lemma mem_keys_dictInsert {d : List (String × String)} {k v k' : String} :
    k' ∈ (dictInsert d k v).map Prod.fst ↔ k' = k ∨ k' ∈ d.map Prod.fst := by
  unfold dictInsert
  split
  · rename_i hany
    obtain ⟨q, hq, hqk0⟩ := List.any_eq_true.mp hany
    have hqk : q.1 = k := by simpa using hqk0
    constructor
    · intro hm
      obtain ⟨p, hp, hpe⟩ := List.mem_map.mp hm
      obtain ⟨p', hp', hpe'⟩ := List.mem_map.mp hp
      by_cases hk : p'.1 = k
      · rw [if_pos hk] at hpe'
        left
        rw [← hpe, ← hpe']
      · rw [if_neg hk] at hpe'
        right
        exact List.mem_map.mpr ⟨p', hp', by rw [hpe', hpe]⟩
    · intro hm
      rcases hm with rfl | hm
      · exact List.mem_map.mpr ⟨(k', v), List.mem_map.mpr ⟨q, hq, by rw [if_pos hqk]⟩, rfl⟩
      · obtain ⟨p, hp, hpe⟩ := List.mem_map.mp hm
        by_cases hk : p.1 = k
        · exact List.mem_map.mpr ⟨(k, v), List.mem_map.mpr ⟨p, hp, by rw [if_pos hk]⟩,
            by rw [← hpe, hk]⟩
        · exact List.mem_map.mpr ⟨p, List.mem_map.mpr ⟨p, hp, by rw [if_neg hk]⟩, hpe⟩
  · rw [List.map_append, List.mem_append]
    simp [or_comm]

lemma ger_fold_sound (find_module : String → Option String) :
    ∀ (names : List String) (acc : List (String × String)) (kv : String × String),
      kv ∈ names.foldl
        (fun acc package_name =>
          match find_module package_name with
          | some path => dictInsert acc (basename path) path
          | none => acc) acc →
      kv ∈ acc ∨ (kv.1 = basename kv.2 ∧ ∃ n ∈ names, find_module n = some kv.2) := by
  intro names
  induction names with
  | nil => exact fun acc kv h => Or.inl h
  | cons n ns ih =>
    intro acc kv h
    rw [List.foldl_cons] at h
    cases hf : find_module n with
    | none =>
      rw [hf] at h
      simp only at h
      rcases ih _ _ h with h' | ⟨h1, m, hm, h2⟩
      · exact Or.inl h'
      · exact Or.inr ⟨h1, m, List.mem_cons_of_mem _ hm, h2⟩
    | some path =>
      rw [hf] at h
      simp only at h
      rcases ih _ _ h with h' | ⟨h1, m, hm, h2⟩
      · rcases mem_dictInsert h' with rfl | h''
        · exact Or.inr ⟨rfl, n, List.mem_cons_self _ _, hf⟩
        · exact Or.inl h''
      · exact Or.inr ⟨h1, m, List.mem_cons_of_mem _ hm, h2⟩

lemma ger_fold_keys (find_module : String → Option String) :
    ∀ (names : List String) (acc : List (String × String)) (k : String),
      (k ∈ acc.map Prod.fst ∨ ∃ n ∈ names, ∃ p, find_module n = some p ∧ basename p = k) →
      k ∈ (names.foldl
        (fun acc package_name =>
          match find_module package_name with
          | some path => dictInsert acc (basename path) path
          | none => acc) acc).map Prod.fst := by
  intro names
  induction names with
  | nil =>
    intro acc k h
    rcases h with h | ⟨n, hn, -⟩
    · exact h
    · simp at hn
  | cons n ns ih =>
    intro acc k h
    rw [List.foldl_cons]
    rcases h with h | ⟨m, hm, p, hp, hbk⟩
    · apply ih
      left
      cases hf : find_module n with
      | none => simpa using h
      | some path =>
        simp only
        exact mem_keys_dictInsert.mpr (Or.inr h)
    · rcases List.mem_cons.mp hm with rfl | hm'
      · apply ih
        left
        rw [hp]
        simp only
        exact mem_keys_dictInsert.mpr (Or.inl hbk.symm)
      · apply ih
        right
        exact ⟨m, hm', p, hp, hbk⟩

/-- C9: when running from a packaged bundle, an absent index file yields an empty
mapping; every entry of the returned mapping is a package resolved from a listed
name, keyed by the basename of its import location; and a key is present exactly
when some listed name resolves to a location with that basename — unresolvable
names are skipped without failing. -/
theorem editable_requirements_from_index (names : List String)
    (find_module : String → Option String) :
    (get_editable_requirements_from_pex none find_module = []) ∧
    (∀ kv ∈ get_editable_requirements_from_pex (some names) find_module,
      kv.1 = basename kv.2 ∧ ∃ n ∈ names, find_module n = some kv.2) ∧
    (∀ k, (∃ v, (k, v) ∈ get_editable_requirements_from_pex (some names) find_module) ↔
      ∃ n ∈ names, ∃ p, find_module n = some p ∧ basename p = k) := by
  refine ⟨rfl, ?_, ?_⟩
  · intro kv hkv
    rcases ger_fold_sound find_module names [] kv hkv with h | h
    · simp at h
    · exact h
  · intro k
    constructor
    · rintro ⟨v, hv⟩
      rcases ger_fold_sound find_module names [] (k, v) hv with h | ⟨h1, n, hn, h2⟩
      · simp at h
      · exact ⟨n, hn, v, h2, h1.symm⟩
    · intro h
      have hk := ger_fold_keys find_module names [] k (Or.inr h)
      obtain ⟨p, hp, hpe⟩ := List.mem_map.mp hk
      exact ⟨p.2, by rw [← hpe]; exact hp⟩

theorem editable_requirements_from_index_witness :
    ∃ v, (("user-lib" : String), v) ∈ get_editable_requirements_from_pex
      (some ["user-lib", "not-existing-pgk"])
      (fun n => if n = "user-lib" then some "/repo/user-lib" else none) :=
  ((editable_requirements_from_index ["user-lib", "not-existing-pgk"]
      (fun n => if n = "user-lib" then some "/repo/user-lib" else none)).2.2
    "user-lib").mpr ⟨"user-lib", by decide, "/repo/user-lib", by decide, by decide⟩

lemma endsWithPyc_append_slash {xs f : List Char} (h : endsWithPyc f = false) :
    endsWithPyc (xs ++ '/' :: f) = false := by
  unfold endsWithPyc at h ⊢
  have hrev : (xs ++ '/' :: f).reverse = f.reverse ++ '/' :: xs.reverse := by
    rw [List.reverse_append, List.reverse_cons, List.append_assoc, List.singleton_append]
  rw [hrev, List.take_append_eq_append_take]
  by_cases hl : 4 ≤ f.reverse.length
  · rw [Nat.sub_eq_zero_of_le hl, List.take_zero, List.append_nil]
    exact h
  · obtain ⟨m, hm⟩ : ∃ m, 4 - f.reverse.length = m + 1 :=
      ⟨3 - f.reverse.length, by omega⟩
    rw [hm, List.take_succ_cons]
    rw [beq_eq_false_iff_ne]
    intro heq
    have : '/' ∈ f.reverse.take 4 ++ '/' :: List.take m xs.reverse :=
      List.mem_append_right _ (List.mem_cons_self _ _)
    rw [heq] at this
    simp at this

lemma joinPath_parts_single (p : List Char) (rest : List (List Char)) (f : List Char) :
    joinPath ((p :: rest) ++ [f]) = f ∨
      ∃ xs, joinPath ((p :: rest) ++ [f]) = xs ++ '/' :: f := by
  have hred : joinPath ((p :: rest) ++ [f]) =
      List.foldl (fun acc q => if acc = [] then q else acc ++ '/' :: q) p (rest ++ [f]) := rfl
  rw [hred, List.foldl_append, List.foldl_cons, List.foldl_nil]
  by_cases h : rest.foldl (fun acc q => if acc = [] then q else acc ++ '/' :: q) p = []
  · left
    rw [h]
    simp
  · right
    exact ⟨_, by rw [if_neg h]⟩

lemma endsWithPyc_arcname {base : List Char} {ibn : Bool} {rel : List (List Char)}
    {f : List Char} (h : endsWithPyc f = false) :
    endsWithPyc (arcname base ibn rel f) = false := by
  unfold arcname
  rcases joinPath_parts_single (if ibn then base else []) rel f with h' | ⟨xs, h'⟩ <;> rw [h']
  · exact h
  · exact endsWithPyc_append_slash h

/-- C10: the archive written by `zip_path` contains an entry for every walked
regular file whose name does not end in `.pyc`, at the join of the directory
basename (exactly when `include_base_name` is true), its relative directory and
its name; and no entry of the archive ends in `.pyc`. -/
theorem zip_path_entries_spec (py_dir_basename : List Char) (include_base_name : Bool)
    (files : List (List (List Char) × List Char)) :
    (∀ rf ∈ files, endsWithPyc rf.2 = false →
      arcname py_dir_basename include_base_name rf.1 rf.2 ∈
        zip_path_entries py_dir_basename include_base_name files) ∧
    (∀ e ∈ zip_path_entries py_dir_basename include_base_name files,
      endsWithPyc e = false) := by
  constructor
  · intro rf hrf h
    unfold zip_path_entries
    exact List.mem_filterMap.mpr ⟨rf, hrf, by rw [if_neg (by simp [h])]⟩
  · intro e he
    obtain ⟨rf, hrf, hfe⟩ := List.mem_filterMap.mp he
    by_cases h : endsWithPyc rf.2 = true
    · rw [if_pos h] at hfe
      cases hfe
    · simp only [Bool.not_eq_true] at h
      rw [if_neg (by simp [h])] at hfe
      obtain rfl : arcname py_dir_basename include_base_name rf.1 rf.2 = e := by
        injection hfe
      exact endsWithPyc_arcname h

theorem zip_path_entries_spec_witness :
    arcname "base".data true [] "bar.txt".data ∈
      zip_path_entries "base".data true
        [([], "bar.txt".data), (["sub".data], "g.pyc".data)] :=
  (zip_path_entries_spec "base".data true
      [([], "bar.txt".data), (["sub".data], "g.pyc".data)]).1
    ([], "bar.txt".data) (by decide) (by decide)

end ClusterPack
